import Mathlib

/-!
# Meal monitor: a shallow embedding of `main/monitor.c`

The file embeds the meal-state detector `checkMealState` and the periodic
haptic callback `hapticFunc` of `main/monitor.c` and proves properties of them.

Modelling conventions.

* C `int` values (`adValue`, `count`, `i`) are `Int`.  The only arithmetic on
  them is `i++`, `count++`, `i % nFreq`, `i / nFreq` and `nFreq * nDamp`; on
  every state reachable from the initial one `0 ≤ i < 18` and
  `0 ≤ count < 1000` (see `runHaptic_inv`), so no 32-bit overflow can occur.
  C division and remainder truncate toward zero: `Int.tdiv`, `Int.tmod`.
* C `double` values (`since`, `omega`, `B`, `pwm`, the tables of `wave`) are
  rationals `ℚ`; every finite `double` is a rational.  The product
  `pwm * BDC_MCPWM_DUTY_TICK_MAX` of line 227 is rounded to binary64
  (`roundBinary64`: nearest value, ties to even), because the truncating
  conversion that follows makes the duty depend on that rounding.  The other
  `double` operations (`since += 0.0001`, the products of lines 197 and 207)
  are exact, and the decimal literals `0.3` and `0.0001` stand for `3/10` and
  `1/10000`; no property proved below depends on their rounding.
* `cos`, `exp` and `M_PI` come from `<math.h>`, which is not part of the
  repository: they are the fields of a parameter `Libm`.
* An array read outside its bounds and a `double → unsigned int` conversion
  outside the range of `unsigned int` are undefined behaviour: the functions
  that contain them return `Option`, `none` standing for undefined behaviour.
* Calls into the drivers, the logger and the network are recorded, in program
  order, as a list of `Effect`s.  A call is synchronous: the caller continues
  after the callee has returned.
-/

namespace Monitor

/-! ## Constants -/

/-- Macro `#define ADC_THRESHOLD_1 2000`. -/
def ADC_THRESHOLD_1 : Int := 2000

/-- Macro `#define ADC_THRESHOLD_2 3000`. -/
def ADC_THRESHOLD_2 : Int := 3000

/-- Macro `#define BDC_MCPWM_TIMER_RESOLUTION_HZ 10000000`. -/
def BDC_MCPWM_TIMER_RESOLUTION_HZ : Int := 10000000

/-- Macro `#define BDC_MCPWM_FREQ_HZ 25000`. -/
def BDC_MCPWM_FREQ_HZ : Int := 25000

/-- Macro `#define BDC_MCPWM_DUTY_TICK_MAX (BDC_MCPWM_TIMER_RESOLUTION_HZ / BDC_MCPWM_FREQ_HZ)`. -/
def BDC_MCPWM_DUTY_TICK_MAX : Int :=
  Int.tdiv BDC_MCPWM_TIMER_RESOLUTION_HZ BDC_MCPWM_FREQ_HZ

/-- The part of `<math.h>` used by `hapticFunc`. -/
structure Libm where
  M_PI : ℚ
  cos : ℚ → ℚ
  exp : ℚ → ℚ

/-- The type `struct WaveParam`. -/
structure WaveParam where
  damp : List ℚ
  nDamp : Int
  freq : List ℚ
  nFreq : Int
  amplitude : ℚ

/-- The global `wave`. -/
def wave : WaveParam where
  damp := [-2, -5, -10]
  nDamp := 3
  freq := [10, 20, 50, 100, 200, 500]
  nFreq := 6
  amplitude := 2

/-- A C array read `xs[k]`; `none` outside the bounds. -/
def arrayGet (xs : List ℚ) (k : Int) : Option ℚ :=
  if 0 ≤ k then xs.get? k.toNat else none

/-- Conversion of a `double` to `unsigned int`: the fractional part is
discarded; `none` when the integral part is not representable in 32 bits. -/
def doubleToUInt (x : ℚ) : Option Nat :=
  if -1 < x ∧ x < 4294967296 then some (if 0 ≤ x then ⌊x⌋.toNat else 0) else none

/-! ## Effects -/

/-- The external calls made by `checkMealState` and `hapticFunc`. -/
inductive Effect where
  /-- Call `adc_oneshot_read(adc1_handle, ADC_CHANNEL_6, &adValue)` -/
  | adcRead
  /-- Call `ESP_LOGI(TAG, msg)` with a constant message -/
  | logInfo (msg : String)
  /-- Call `ESP_LOGI(TAG, "ADC:%d", v)` -/
  | logAdc (v : Int)
  /-- Call `send_http_msg(msg)`: DNS lookup, connect, write and read loop, run to
  completion inside the call -/
  | sendHttpMsg (msg : String)
  /-- Call `printf("\r\n")` -/
  | printNewline
  /-- Call `printf("Wave: %3.1fHz, A=%2.2f, B=%3.1f ", hz, a, b)` -/
  | printWave (hz a b : ℚ)
  /-- Call `bdc_motor_forward(motor)` -/
  | motorForward
  /-- Call `bdc_motor_reverse(motor)` -/
  | motorReverse
  /-- Call `bdc_motor_set_speed(motor, speed)` -/
  | motorSetSpeed (speed : Nat)
  deriving DecidableEq, Repr

/-- The messages handed to `send_http_msg`, in order. -/
def sentMsgs : List Effect → List String
  | [] => []
  | Effect.sendHttpMsg msg :: es => msg :: sentMsgs es
  | _ :: es => sentMsgs es

/-! ## `checkMealState` -/

/-- The function `checkMealState(adc_val)` on the global `meal_in_progress`: the new value
of the flag and the calls made. -/
def checkMealState (meal_in_progress : Bool) (adc_val : Int) : Bool × List Effect :=
  if !meal_in_progress && decide (adc_val ≥ ADC_THRESHOLD_2) then
    (true, [Effect.logInfo ">>> Detected mealStart", Effect.sendHttpMsg "mealStart"])
  else if meal_in_progress && decide (adc_val < ADC_THRESHOLD_1) then
    (false, [Effect.logInfo ">>> Detected mealEnd", Effect.sendHttpMsg "mealEnd"])
  else
    (meal_in_progress, [])

/-- Successive calls of `checkMealState`, one per reading: the final flag and
the messages sent by each call. -/
def runMeal (meal_in_progress : Bool) : List Int → Bool × List (List String)
  | [] => (meal_in_progress, [])
  | r :: rs =>
    let step := checkMealState meal_in_progress r
    let rest := runMeal step.1 rs
    (rest.1, sentMsgs step.2 :: rest.2)

/-- The `k`-th event of a strictly alternating stream that starts with
`"mealStart"`. -/
def alternating (k : Nat) : String :=
  if k % 2 = 0 then "mealStart" else "mealEnd"

/-- The strictly alternating stream of `n` events whose first event is the one
that leaves the state `s`: `"mealStart"` from Idle, `"mealEnd"` from InMeal. -/
def altFrom : Bool → Nat → List String
  | _, 0 => []
  | s, n + 1 => (if s then "mealEnd" else "mealStart") :: altFrom (!s) n

/-! ## `hapticFunc` -/

/-- The globals `adValue`, `meal_in_progress`, `count`, `since` and the
function-local statics `i`, `omega`, `B` of `hapticFunc`. -/
structure HapticState where
  adValue : Int
  meal_in_progress : Bool
  count : Int
  since : ℚ
  i : Int
  omega : ℚ
  B : ℚ
  deriving DecidableEq

/-- The values given by the initialisers. -/
def HapticState.init : HapticState where
  adValue := 0
  meal_in_progress := false
  count := 0
  since := -1
  i := 0
  omega := 0
  B := 0

/-- Lines 190-193: `if (adValue < 2100 && since > 0.3) { since = -1; printf("\r\n"); }` -/
def rearmStep (st : HapticState) : HapticState × List Effect :=
  if st.adValue < 2100 ∧ st.since > 3 / 10 then
    ({ st with since := -1 }, [Effect.printNewline])
  else
    (st, [])

/-- The condition of the `if` of line 194. -/
def triggerCond (st : HapticState) : Bool :=
  decide (st.adValue > 2400) && decide (st.since = -1)

/-- Lines 196-201, the body of the `if` of line 194. -/
def triggerBody (m : Libm) (st : HapticState) : Option (HapticState × List Effect) := do
  let f ← arrayGet wave.freq (Int.tmod st.i wave.nFreq)
  let omega := f * m.M_PI * 2
  let B ← arrayGet wave.damp (Int.tdiv st.i wave.nFreq)
  let i := st.i + 1
  let i := if i ≥ wave.nFreq * wave.nDamp then 0 else i
  pure ({ st with since := 0, omega := omega, B := B, i := i },
        [Effect.printWave (omega / (m.M_PI * 2)) wave.amplitude B])

/-- Lines 194-202. -/
def triggerStep (m : Libm) (st : HapticState) : Option (HapticState × List Effect) :=
  if triggerCond st then triggerBody m st else some (st, [])

/-- Lines 205-215: the local `pwm` and the state after the update of `since`. -/
def waveStep (m : Libm) (st : HapticState) : ℚ × HapticState :=
  if st.since ≥ 0 then
    (wave.amplitude * m.cos (st.omega * st.since) * m.exp (st.B * st.since),
     { st with since := st.since + 1 / 10000 })
  else
    (0, st)

/-- Lines 218-223: the direction call and the value of `pwm` after the
`if`/`else` (negated in the `else` branch). -/
def motorSign (pwm : ℚ) : Effect × ℚ :=
  if pwm > 0 then (Effect.motorForward, pwm) else (Effect.motorReverse, -pwm)

/-- Line 224: `if (pwm > 1) pwm = 1;` -/
def clampPwm (pwm : ℚ) : ℚ :=
  if pwm > 1 then 1 else pwm

/-- Rounding of a rational to the nearest integer, a tie going to the even
neighbour. -/
def roundHalfEven (y : ℚ) : Int :=
  if y - ⌊y⌋ < 1 / 2 then ⌊y⌋
  else if y - ⌊y⌋ > 1 / 2 then ⌊y⌋ + 1
  else if ⌊y⌋ % 2 = 0 then ⌊y⌋ else ⌊y⌋ + 1

/-- The spacing of the binary64 values around `x`: `2 ^ (e - 52)` where
`2 ^ e ≤ |x| < 2 ^ (e + 1)`, with `e` not below the least normal exponent
`-1022`. -/
def ulp (x : ℚ) : ℚ :=
  (2 : ℚ) ^ (max (Int.log 2 |x|) (-1022) - 52)

/-- The binary64 value of an exact result `x` of a `double` operation:
round to nearest, ties to even (the default rounding mode).  Overflow to
infinity is not represented; the only use below is on values in `[0, 400]`. -/
def roundBinary64 (x : ℚ) : ℚ :=
  roundHalfEven (x / ulp x) * ulp x

/-- Lines 218-228: the calls to the motor driver for a value of `pwm`.  The
product of line 227 is a `double` product, rounded to binary64 before the
conversion to `unsigned int`. -/
def motorStep (pwm : ℚ) : Option (List Effect) := do
  let d := motorSign pwm
  let speed ← doubleToUInt (roundBinary64 (clampPwm d.2 * (BDC_MCPWM_DUTY_TICK_MAX : ℚ)))
  pure [d.1, Effect.motorSetSpeed speed]

/-- Lines 231-235. -/
def countStep (st : HapticState) : HapticState × List Effect :=
  let c := st.count + 1
  if c ≥ 1000 then ({ st with count := 0 }, [Effect.logAdc st.adValue])
  else ({ st with count := c }, [])

/-- Lines 184-187 of `hapticFunc`: the ADC read and the call of
`checkMealState`; `reading` is the value that `adc_oneshot_read` leaves in
`adValue`. -/
def readAndCheck (st : HapticState) (reading : Int) : HapticState × List Effect :=
  let st := { st with adValue := reading }
  let meal := checkMealState st.meal_in_progress st.adValue
  ({ st with meal_in_progress := meal.1 }, Effect.adcRead :: meal.2)

/-- Lines 184-215 of `hapticFunc`: the value of the local `pwm` at line 216,
the state and the calls made so far. -/
def hapticWave (m : Libm) (st : HapticState) (reading : Int) :
    Option (ℚ × HapticState × List Effect) := do
  let (st, e0) := readAndCheck st reading
  let (st, e1) := rearmStep st
  let (st, e2) ← triggerStep m st
  let (pwm, st) := waveStep m st
  pure (pwm, st, e0 ++ e1 ++ e2)

/-- One call of `hapticFunc`: the new state and the calls made, in order. -/
def hapticFunc (m : Libm) (st : HapticState) (reading : Int) :
    Option (HapticState × List Effect) := do
  let (pwm, st, e) ← hapticWave m st reading
  let e3 ← motorStep pwm
  let (st, e4) := countStep st
  pure (st, e ++ e3 ++ e4)

/-- The value of the local `pwm` at line 216 in a call of `hapticFunc`. -/
def hapticSample (m : Libm) (st : HapticState) (reading : Int) : Option ℚ :=
  (hapticWave m st reading).map (fun w => w.1)

/-- Successive calls of `hapticFunc`, one per reading, with the calls made. -/
def runHaptic (m : Libm) (st : HapticState) : List Int → Option (HapticState × List Effect)
  | [] => some (st, [])
  | r :: rs => do
    let (st1, e1) ← hapticFunc m st r
    let (st2, e2) ← runHaptic m st1 rs
    pure (st2, e1 ++ e2)

/-- The number of executions of the body of the `if` of line 194 in a list of
calls: each execution prints one `"Wave: ..."` line. -/
def triggerCount : List Effect → Nat
  | [] => 0
  | Effect.printWave _ _ _ :: es => triggerCount es + 1
  | _ :: es => triggerCount es

/-- The state after `n` successive executions of the body of the `if` of
line 194. -/
def triggerN (m : Libm) : Nat → HapticState → Option HapticState
  | 0, st => some st
  | n + 1, st => do
    let (st1, _) ← triggerBody m st
    triggerN m n st1

/-- The invariant of the reachable states: `since` is `-1` or non-negative,
`i` indexes a preset and `count` is below the logging period. -/
def Inv (st : HapticState) : Prop :=
  (st.since = -1 ∨ 0 ≤ st.since) ∧ 0 ≤ st.i ∧ st.i < 18 ∧ 0 ≤ st.count ∧ st.count < 1000

/-- A stand-in for `<math.h>` with rational values: `M_PI` is the decimal
literal of the header, `cos` and `exp` are the Taylor polynomials of degree 2. -/
def libmPoly : Libm where
  M_PI := 314159265358979323846 / 100000000000000000000
  cos := fun x => 1 - x * x / 2
  exp := fun x => 1 + x + x * x / 2

/-! ## The meal state machine -/

lemma checkMealState_start (r : Int) (hr : r ≥ 3000) :
    checkMealState false r =
      (true, [Effect.logInfo ">>> Detected mealStart", Effect.sendHttpMsg "mealStart"]) := by
  simp [checkMealState, ADC_THRESHOLD_2, hr]

lemma checkMealState_end (r : Int) (hr : r < 2000) :
    checkMealState true r =
      (false, [Effect.logInfo ">>> Detected mealEnd", Effect.sendHttpMsg "mealEnd"]) := by
  simp [checkMealState, ADC_THRESHOLD_1, hr]

lemma checkMealState_other (s : Bool) (r : Int) (h1 : ¬ (s = false ∧ r ≥ 3000))
    (h2 : ¬ (s = true ∧ r < 2000)) : checkMealState s r = (s, []) := by
  cases s <;> simp_all [checkMealState, ADC_THRESHOLD_1, ADC_THRESHOLD_2]

lemma checkMealState_sent_length (s : Bool) (r : Int) :
    (sentMsgs (checkMealState s r).2).length ≤ 1 := by
  unfold checkMealState
  split_ifs <;> simp [sentMsgs]

lemma altFrom_length (n : Nat) : ∀ s, (altFrom s n).length = n := by
  induction n with
  | zero => intro s; rfl
  | succ n ih => intro s; simp [altFrom, ih]

lemma altFrom_getElem? (n : Nat) : ∀ (s : Bool) (k : Nat), k < n →
    (altFrom s n)[k]? = some (alternating (k + s.toNat)) := by
  induction n with
  | zero => intro s k hk; omega
  | succ n ih =>
    intro s k hk
    cases k with
    | zero => cases s <;> simp [altFrom, alternating]
    | succ k =>
      have hk2 : k < n := by omega
      rw [altFrom, List.getElem?_cons_succ, ih (!s) k hk2]
      cases s
      · simp [alternating, Nat.add_mod]
      · have e : k + 1 + true.toNat = k + 2 := rfl
        have e2 : (k + 2) % 2 = k % 2 := by omega
        simp [alternating, e, e2]

lemma altFrom_chain (n : Nat) : ∀ s, List.Chain' (fun a b => a ≠ b) (altFrom s n) := by
  induction n with
  | zero => intro s; simp [altFrom]
  | succ n ih =>
    intro s
    rw [altFrom, List.chain'_cons']
    refine ⟨?_, ih (!s)⟩
    intro y hy
    cases n with
    | zero => simp [altFrom] at hy
    | succ n =>
      cases s <;> simp [altFrom] at hy <;> subst hy <;> decide

/-- The events of a run are an alternating stream that starts at the
initial state, and the final state is fixed by the parity of their number. -/
lemma runMeal_altFrom (rs : List Int) : ∀ s : Bool,
    ∃ n, (runMeal s rs).2.flatten = altFrom s n ∧
      (runMeal s rs).1 = (if n % 2 = 0 then s else !s) := by
  induction rs with
  | nil => intro s; exact ⟨0, rfl, rfl⟩
  | cons r rs ih =>
    intro s
    by_cases h1 : s = false ∧ r ≥ 3000
    · obtain ⟨hs, hr⟩ := h1
      subst hs
      obtain ⟨n, hn, hf⟩ := ih true
      refine ⟨n + 1, ?_, ?_⟩
      · simp [runMeal, checkMealState_start r hr, sentMsgs, altFrom, hn]
      · simp only [runMeal, checkMealState_start r hr, hf]
        rcases Nat.mod_two_eq_zero_or_one n with h | h <;> simp [h, Nat.add_mod]
    · by_cases h2 : s = true ∧ r < 2000
      · obtain ⟨hs, hr⟩ := h2
        subst hs
        obtain ⟨n, hn, hf⟩ := ih false
        refine ⟨n + 1, ?_, ?_⟩
        · simp [runMeal, checkMealState_end r hr, sentMsgs, altFrom, hn]
        · simp only [runMeal, checkMealState_end r hr, hf]
          rcases Nat.mod_two_eq_zero_or_one n with h | h <;> simp [h, Nat.add_mod]
      · have hc : checkMealState s r = (s, []) := checkMealState_other s r h1 h2
        obtain ⟨n, hn, hf⟩ := ih s
        refine ⟨n, ?_, ?_⟩
        · simp [runMeal, hc, sentMsgs, hn]
        · simp [runMeal, hc, hf]

lemma runMeal_length (rs : List Int) : ∀ s : Bool, (runMeal s rs).2.length = rs.length := by
  induction rs with
  | nil => intro s; rfl
  | cons r rs ih => intro s; simp [runMeal, ih]

lemma runMeal_mem_length (rs : List Int) : ∀ s : Bool,
    ∀ l ∈ (runMeal s rs).2, l.length ≤ 1 := by
  induction rs with
  | nil => intro s l hl; simp [runMeal] at hl
  | cons r rs ih =>
    intro s l hl
    simp only [runMeal, List.mem_cons] at hl
    rcases hl with h | h
    · rw [h]; exact checkMealState_sent_length s r
    · exact ih _ l h

/-! ## The actuator mapping -/

lemma duty_tick_max : BDC_MCPWM_DUTY_TICK_MAX = 400 := by decide

lemma motorSign_snd (pwm : ℚ) : (motorSign pwm).2 = |pwm| := by
  unfold motorSign
  split_ifs with h
  · exact (abs_of_pos h).symm
  · exact (abs_of_nonpos (not_lt.mp h)).symm

lemma clampPwm_eq_min (x : ℚ) : clampPwm x = min x 1 := by
  unfold clampPwm
  split_ifs with h
  · exact (min_eq_right h.le).symm
  · exact (min_eq_left (not_lt.mp h)).symm

lemma doubleToUInt_of_range (x : ℚ) (h0 : 0 ≤ x) (h1 : x ≤ 400) :
    doubleToUInt x = some ⌊x⌋.toNat := by
  unfold doubleToUInt
  have h : -1 < x ∧ x < 4294967296 := ⟨by linarith, by linarith⟩
  simp [h, h0]

lemma roundHalfEven_le (y : ℚ) (n : Int) (h : y ≤ n) : roundHalfEven y ≤ n := by
  have hf : ⌊y⌋ ≤ n := Int.floor_le_iff.mpr (by linarith)
  have hstep : 0 < y - ⌊y⌋ → ⌊y⌋ + 1 ≤ n := by
    intro hpos
    have : (⌊y⌋ : ℚ) < n := by linarith
    have : ⌊y⌋ < n := by exact_mod_cast this
    omega
  unfold roundHalfEven
  split_ifs with h1 h2 h3
  · exact hf
  · exact hstep (by linarith)
  · exact hf
  · exact hstep (by linarith)

lemma le_roundHalfEven (y : ℚ) (n : Int) (h : (n : ℚ) ≤ y) : n ≤ roundHalfEven y := by
  have hf : n ≤ ⌊y⌋ := Int.le_floor.mpr h
  unfold roundHalfEven
  split_ifs <;> omega

lemma ulp_pos (x : ℚ) : 0 < ulp x := by
  unfold ulp
  positivity

/-- The binade of a positive rational is fixed by the two powers of two
around it. -/
lemma log_eq_of_bounds (r : ℚ) (k : Int) (h0 : (2 : ℚ) ^ k ≤ r)
    (h1 : r < (2 : ℚ) ^ (k + 1)) : Int.log 2 r = k := by
  have hr : 0 < r := lt_of_lt_of_le (by positivity) h0
  have a : k ≤ Int.log 2 r :=
    (Int.zpow_le_iff_le_log (by decide) hr).mp (by exact_mod_cast h0)
  have b : Int.log 2 r < k + 1 :=
    (Int.lt_zpow_iff_log_lt (by decide) hr).mp (by exact_mod_cast h1)
  omega

/-- Up to 400 the spacing of the binary64 values is at most `2 ^ (-44)`. -/
lemma ulp_exponent_le (x : ℚ) (hx : |x| ≤ 400) :
    max (Int.log 2 |x|) (-1022) - 52 ≤ -44 := by
  have h : Int.log 2 |x| ≤ 8 := by
    rcases eq_or_lt_of_le (abs_nonneg x) with h0 | h0
    · rw [← h0, Int.log_zero_right]; decide
    · have h9 : |x| < ((2 : ℕ) : ℚ) ^ (9 : Int) := by
        have : ((2 : ℕ) : ℚ) ^ (9 : Int) = 512 := by norm_num
        rw [this]; linarith
      have := (Int.lt_zpow_iff_log_lt (by decide) h0).mp h9
      omega
  have := max_le h (by decide : (-1022 : Int) ≤ 8)
  omega

/-- A multiple of `2 ^ (-44)` is a multiple of the spacing at any `x` up to
400. -/
lemma multiple_of_ulp (x : ℚ) (hx : |x| ≤ 400) (n : Int) :
    ∃ z : Int, (n : ℚ) / 2 ^ 44 = z * ulp x := by
  have hj := ulp_exponent_le x hx
  unfold ulp
  generalize max (Int.log 2 |x|) (-1022) - 52 = j at hj
  obtain ⟨k, hk⟩ : ∃ k : ℕ, j = -44 - k := ⟨(-44 - j).toNat, by omega⟩
  refine ⟨n * 2 ^ k, ?_⟩
  subst hk
  rw [sub_eq_add_neg, zpow_add₀ (by norm_num : (2 : ℚ) ≠ 0), zpow_neg, zpow_neg, zpow_natCast]
  push_cast
  have : (2 : ℚ) ^ k ≠ 0 := by positivity
  field_simp
  ring

lemma roundBinary64_le (x c : ℚ) (z : Int) (hc : c = z * ulp x) (h : x ≤ c) :
    roundBinary64 x ≤ c := by
  have hp := ulp_pos x
  have h1 : roundHalfEven (x / ulp x) ≤ z := roundHalfEven_le _ _ (by
    rw [div_le_iff₀ hp, ← hc]; exact h)
  unfold roundBinary64
  rw [hc]
  have h2 : (roundHalfEven (x / ulp x) : ℚ) ≤ z := by exact_mod_cast h1
  exact mul_le_mul_of_nonneg_right h2 hp.le

lemma le_roundBinary64 (x c : ℚ) (z : Int) (hc : c = z * ulp x) (h : c ≤ x) :
    c ≤ roundBinary64 x := by
  have hp := ulp_pos x
  have h1 : z ≤ roundHalfEven (x / ulp x) := le_roundHalfEven _ _ (by
    rw [le_div_iff₀ hp, ← hc]; exact h)
  unfold roundBinary64
  rw [hc]
  have h2 : (z : ℚ) ≤ roundHalfEven (x / ulp x) := by exact_mod_cast h1
  exact mul_le_mul_of_nonneg_right h2 hp.le

/-- A multiple of `2 ^ (-44)` up to 400 is a binary64 value: rounding leaves
it unchanged. -/
lemma roundBinary64_exact (n : Int) (hx : |(n : ℚ) / 2 ^ 44| ≤ 400) :
    roundBinary64 ((n : ℚ) / 2 ^ 44) = (n : ℚ) / 2 ^ 44 := by
  obtain ⟨z, hz⟩ := multiple_of_ulp _ hx n
  exact le_antisymm (roundBinary64_le _ _ z hz le_rfl) (le_roundBinary64 _ _ z hz le_rfl)

/-- Rounding a value up to 400 does not cross an integer. -/
lemma roundBinary64_int_bounds (x : ℚ) (hx : |x| ≤ 400) (n : Int) :
    ((n : ℚ) ≤ x → (n : ℚ) ≤ roundBinary64 x) ∧ (x ≤ n → roundBinary64 x ≤ n) := by
  obtain ⟨z, hz⟩ := multiple_of_ulp x hx (n * 2 ^ 44)
  have e : ((n * 2 ^ 44 : Int) : ℚ) / 2 ^ 44 = n := by
    push_cast
    norm_num
  rw [e] at hz
  exact ⟨le_roundBinary64 x n z hz, roundBinary64_le x n z hz⟩

lemma roundBinary64_int (n : Int) (hn : |(n : ℚ)| ≤ 400) : roundBinary64 n = n :=
  le_antisymm ((roundBinary64_int_bounds n hn n).2 le_rfl)
    ((roundBinary64_int_bounds n hn n).1 le_rfl)

lemma duty_arg_range (pwm : ℚ) :
    0 ≤ min |pwm| 1 * 400 ∧ min |pwm| 1 * 400 ≤ 400 ∧ |min |pwm| 1 * 400| ≤ 400 := by
  have h0 : 0 ≤ min |pwm| 1 := le_min (abs_nonneg pwm) zero_le_one
  have h1 : min |pwm| 1 ≤ 1 := min_le_right _ _
  have a : 0 ≤ min |pwm| 1 * 400 := by linarith
  have b : min |pwm| 1 * 400 ≤ 400 := by linarith
  exact ⟨a, b, by rw [abs_of_nonneg a]; exact b⟩

lemma rounded_duty_range (pwm : ℚ) :
    0 ≤ roundBinary64 (min |pwm| 1 * 400) ∧ roundBinary64 (min |pwm| 1 * 400) ≤ 400 := by
  obtain ⟨a, b, c⟩ := duty_arg_range pwm
  have h0 := (roundBinary64_int_bounds _ c 0).1 (by exact_mod_cast a)
  have h1 := (roundBinary64_int_bounds _ c 400).2 (by exact_mod_cast b)
  exact ⟨by exact_mod_cast h0, by exact_mod_cast h1⟩

/-- The closed form of `motorStep`: it is defined for every value of `pwm`. -/
lemma motorStep_eq (pwm : ℚ) :
    motorStep pwm =
      some [(motorSign pwm).1,
        Effect.motorSetSpeed ⌊roundBinary64 (min |pwm| 1 * 400)⌋.toNat] := by
  obtain ⟨h0, h1⟩ := rounded_duty_range pwm
  simp only [motorStep, duty_tick_max, motorSign_snd, clampPwm_eq_min]
  have e : ((400 : Int) : ℚ) = 400 := by norm_num
  rw [e, doubleToUInt_of_range _ h0 h1]
  rfl

lemma duty_le (pwm : ℚ) : ⌊roundBinary64 (min |pwm| 1 * 400)⌋.toNat ≤ 400 := by
  obtain ⟨-, h1⟩ := rounded_duty_range pwm
  have h2 : ⌊roundBinary64 (min |pwm| 1 * 400)⌋ ≤ 400 := Int.floor_le_iff.mpr (by
    push_cast; linarith)
  omega

/-- The duty for a sample whose product with 400 is an integer `k` in
`[0, 400]`. -/
lemma duty_of_int (pwm : ℚ) (k : Nat) (hk : k ≤ 400) (h : min |pwm| 1 * 400 = k) :
    ⌊roundBinary64 (min |pwm| 1 * 400)⌋.toNat = k := by
  have e : roundBinary64 (min |pwm| 1 * 400) = ((k : Int) : ℚ) := by
    rw [h]
    have hk2 : |(((k : Int) : ℚ))| ≤ 400 := by
      rw [abs_of_nonneg (by positivity)]
      exact_mod_cast hk
    exact_mod_cast roundBinary64_int k hk2
  rw [e, Int.floor_intCast, Int.toNat_ofNat]

lemma motorStep_of_int (pwm : ℚ) (k : Nat) (hk : k ≤ 400) (h : min |pwm| 1 * 400 = k) :
    motorStep pwm = some [(motorSign pwm).1, Effect.motorSetSpeed k] := by
  rw [motorStep_eq, duty_of_int pwm k hk h]

lemma motorStep_zero : motorStep 0 = some [Effect.motorReverse, Effect.motorSetSpeed 0] := by
  rw [motorStep_of_int 0 0 (by decide) (by norm_num)]
  simp [motorSign]

lemma motorStep_two : motorStep 2 = some [Effect.motorForward, Effect.motorSetSpeed 400] := by
  rw [motorStep_of_int 2 400 (by decide) (by norm_num)]
  simp [motorSign]

/-! ## Structure of one tick -/

lemma checkMealState_no_speed (s : Bool) (r : Int) (n : Nat) :
    Effect.motorSetSpeed n ∉ (checkMealState s r).2 := by
  unfold checkMealState
  split_ifs <;> simp

lemma rearmStep_effects (st : HapticState) :
    (rearmStep st).2 = [] ∨ (rearmStep st).2 = [Effect.printNewline] := by
  unfold rearmStep
  split_ifs <;> simp

lemma triggerStep_effects (m : Libm) (st st1 : HapticState) (e : List Effect)
    (h : triggerStep m st = some (st1, e)) :
    e = [] ∨ ∃ a b c, e = [Effect.printWave a b c] := by
  unfold triggerStep at h
  split_ifs at h
  · simp only [triggerBody, Option.bind_eq_bind, Option.pure_def, Option.bind_eq_some] at h
    obtain ⟨f, -, d, -, h⟩ := h
    simp only [Option.some.injEq, Prod.mk.injEq] at h
    exact Or.inr ⟨_, _, _, h.2.symm⟩
  · simp only [Option.some.injEq, Prod.mk.injEq] at h
    exact Or.inl h.2.symm

lemma countStep_effects (st : HapticState) :
    (countStep st).2 = [] ∨ (countStep st).2 = [Effect.logAdc st.adValue] := by
  simp only [countStep]
  split_ifs <;> simp

/-- The decomposition of a successful tick into its blocks. -/
lemma hapticFunc_some (m : Libm) (st st1 : HapticState) (r : Int) (e : List Effect)
    (h : hapticFunc m st r = some (st1, e)) :
    ∃ st2 e2,
      triggerStep m (rearmStep (readAndCheck st r).1).1 = some (st2, e2) ∧
      st1 = (countStep (waveStep m st2).2).1 ∧
      e = ((readAndCheck st r).2 ++ (rearmStep (readAndCheck st r).1).2 ++ e2) ++
          [(motorSign (waveStep m st2).1).1,
            Effect.motorSetSpeed ⌊roundBinary64 (min |(waveStep m st2).1| 1 * 400)⌋.toNat] ++
          (countStep (waveStep m st2).2).2 := by
  simp only [hapticFunc, hapticWave, Option.bind_eq_bind, Option.pure_def,
    Option.bind_eq_some] at h
  obtain ⟨⟨pwm, st3, e3⟩, ⟨⟨st2, e2⟩, ht, hw⟩, em, hm, hc⟩ := h
  simp only [Option.some.injEq, Prod.mk.injEq] at hw hc
  obtain ⟨hw1, hw2, hw3⟩ := hw
  obtain ⟨hc1, hc2⟩ := hc
  rw [motorStep_eq] at hm
  simp only [Option.some.injEq] at hm
  refine ⟨st2, e2, ht, ?_, ?_⟩
  · rw [← hc1, ← hw2]
  · rw [← hc2, ← hw3, ← hm, ← hw1, ← hw2]

lemma readAndCheck_effects (st : HapticState) (r : Int) :
    (readAndCheck st r).2 = Effect.adcRead :: (checkMealState st.meal_in_progress r).2 := rfl

lemma hapticFunc_speed_le (m : Libm) (st st1 : HapticState) (r : Int) (e : List Effect)
    (h : hapticFunc m st r = some (st1, e)) (n : Nat) (hn : Effect.motorSetSpeed n ∈ e) :
    n ≤ 400 := by
  obtain ⟨st2, e2, ht, -, he⟩ := hapticFunc_some m st st1 r e h
  rw [he] at hn
  simp only [readAndCheck_effects, List.cons_append, List.mem_append, List.mem_cons,
    List.mem_singleton, Effect.motorSetSpeed.injEq, List.append_assoc, List.nil_append,
    false_or] at hn
  rcases hn with hn | hn | hn | hn | hn | hn | hn
  · exact absurd hn (by simp)
  · exact absurd hn (checkMealState_no_speed _ _ _)
  · rcases rearmStep_effects (readAndCheck st r).1 with h0 | h0 <;> simp [h0] at hn
  · rcases triggerStep_effects m _ _ _ ht with h0 | ⟨a, b, c, h0⟩ <;> simp [h0] at hn
  · unfold motorSign at hn
    split_ifs at hn
  · rw [hn]; exact duty_le _
  · rcases countStep_effects (waveStep m st2).2 with h0 | h0 <;> simp [h0] at hn

/-! ## Preset selection and the reachable states -/

/-- The body of the trigger is defined on every preset index, reads
`wave.freq[i % 6]` and `wave.damp[i / 6]` and advances the index cyclically. -/
lemma triggerBody_eq (m : Libm) (st : HapticState) (h0 : 0 ≤ st.i) (h1 : st.i < 18) :
    ∃ f d, wave.freq[(st.i % 6).toNat]? = some f ∧ wave.damp[(st.i / 6).toNat]? = some d ∧
      triggerBody m st =
        some ({ st with since := 0, omega := f * m.M_PI * 2, B := d, i := (st.i + 1) % 18 },
              [Effect.printWave (f * m.M_PI * 2 / (m.M_PI * 2)) wave.amplitude d]) := by
  unfold triggerBody
  generalize st.i = i at h0 h1
  interval_cases i <;> simp [arrayGet, wave] <;> rfl

lemma readAndCheck_fst (st : HapticState) (r : Int) :
    (readAndCheck st r).1 =
      { st with adValue := r, meal_in_progress := (checkMealState st.meal_in_progress r).1 } :=
  rfl

/-- A tick that starts with `reading > 2400` and `since = -1` executes the
trigger body once, on the preset `i`, and then evaluates the wave at `0`. -/
lemma hapticWave_fired (m : Libm) (st : HapticState) (r : Int) (h0 : 0 ≤ st.i)
    (h1 : st.i < 18) (hr : r > 2400) (hs : st.since = -1) :
    ∃ f d, wave.freq[(st.i % 6).toNat]? = some f ∧ wave.damp[(st.i / 6).toNat]? = some d ∧
      hapticWave m st r = some
        (wave.amplitude * m.cos (f * m.M_PI * 2 * 0) * m.exp (d * 0),
         { st with adValue := r,
                   meal_in_progress := (checkMealState st.meal_in_progress r).1,
                   since := 0 + 1 / 10000, omega := f * m.M_PI * 2, B := d,
                   i := (st.i + 1) % 18 },
         (readAndCheck st r).2 ++
           [Effect.printWave (f * m.M_PI * 2 / (m.M_PI * 2)) wave.amplitude d]) := by
  have hre : rearmStep (readAndCheck st r).1 = ((readAndCheck st r).1, []) := by
    simp [rearmStep, readAndCheck_fst, hs]
    intro _
    norm_num
  have hc : triggerCond (readAndCheck st r).1 = true := by
    simp [triggerCond, readAndCheck_fst, hs, hr]
  obtain ⟨f, d, hf, hd, hb⟩ := triggerBody_eq m (readAndCheck st r).1 h0 h1
  refine ⟨f, d, hf, hd, ?_⟩
  simp only [hapticWave, hre, triggerStep, hc, if_true, hb, Option.bind_eq_bind,
    Option.some_bind, Option.pure_def]
  simp [waveStep, readAndCheck_fst]

/-- A tick that does not start with `reading > 2400` and `since = -1` skips
the trigger body. -/
lemma hapticWave_not_fired (m : Libm) (st : HapticState) (r : Int)
    (h : ¬ (r > 2400 ∧ st.since = -1)) :
    hapticWave m st r = some
      ((waveStep m (rearmStep (readAndCheck st r).1).1).1,
       (waveStep m (rearmStep (readAndCheck st r).1).1).2,
       (readAndCheck st r).2 ++ (rearmStep (readAndCheck st r).1).2) := by
  have hc : triggerCond (rearmStep (readAndCheck st r).1).1 = false := by
    simp only [triggerCond, rearmStep, readAndCheck_fst]
    split_ifs with h2
    · have : ¬ r > 2400 := by omega
      simp [this]
    · by_cases h3 : r > 2400
      · have : st.since ≠ -1 := fun h4 => h ⟨h3, h4⟩
        simp [this]
      · simp [h3]
  simp [hapticWave, triggerStep, hc]

lemma hapticFunc_of_wave (m : Libm) (st st2 : HapticState) (r : Int) (pwm : ℚ)
    (e : List Effect) (h : hapticWave m st r = some (pwm, st2, e)) :
    hapticFunc m st r = some
      ((countStep st2).1,
       e ++ [(motorSign pwm).1,
         Effect.motorSetSpeed ⌊roundBinary64 (min |pwm| 1 * 400)⌋.toNat] ++
         (countStep st2).2) := by
  simp [hapticFunc, h, motorStep_eq]

lemma triggerCount_append (a b : List Effect) :
    triggerCount (a ++ b) = triggerCount a + triggerCount b := by
  induction a with
  | nil => simp [triggerCount]
  | cons x a ih => cases x <;> simp [triggerCount, ih]; omega

lemma triggerCount_readAndCheck (st : HapticState) (r : Int) :
    triggerCount (readAndCheck st r).2 = 0 := by
  rw [readAndCheck_effects]
  unfold checkMealState
  split_ifs <;> rfl

lemma triggerCount_rearmStep (st : HapticState) : triggerCount (rearmStep st).2 = 0 := by
  rcases rearmStep_effects st with h | h <;> rw [h] <;> rfl

lemma triggerCount_countStep (st : HapticState) : triggerCount (countStep st).2 = 0 := by
  rcases countStep_effects st with h | h <;> rw [h] <;> rfl

lemma triggerCount_motor (pwm : ℚ) (n : Nat) :
    triggerCount [(motorSign pwm).1, Effect.motorSetSpeed n] = 0 := by
  unfold motorSign
  split_ifs <;> rfl

lemma triggerCount_tick (a b c : List Effect) (pwm : ℚ) (n : Nat) :
    triggerCount (a ++ b ++ [(motorSign pwm).1, Effect.motorSetSpeed n] ++ c) =
      triggerCount a + triggerCount b + triggerCount c := by
  rw [triggerCount_append, triggerCount_append, triggerCount_append, triggerCount_motor]
  omega

lemma countStep_fields (st : HapticState) :
    (countStep st).1.since = st.since ∧ (countStep st).1.i = st.i ∧
    (countStep st).1.omega = st.omega ∧ (countStep st).1.B = st.B ∧
    (countStep st).1.meal_in_progress = st.meal_in_progress ∧
    (countStep st).1.adValue = st.adValue ∧
    (countStep st).1.count = (if st.count + 1 ≥ 1000 then 0 else st.count + 1) := by
  simp only [countStep]
  split_ifs <;> simp

lemma rearmStep_fields (st : HapticState) :
    (rearmStep st).1.i = st.i ∧ (rearmStep st).1.omega = st.omega ∧
    (rearmStep st).1.B = st.B ∧ (rearmStep st).1.count = st.count ∧
    (rearmStep st).1.meal_in_progress = st.meal_in_progress ∧
    (rearmStep st).1.adValue = st.adValue ∧
    (rearmStep st).1.since = (if st.adValue < 2100 ∧ st.since > 3 / 10 then -1 else st.since) := by
  unfold rearmStep
  split_ifs <;> simp

lemma waveStep_fields (m : Libm) (st : HapticState) :
    (waveStep m st).2.i = st.i ∧ (waveStep m st).2.omega = st.omega ∧
    (waveStep m st).2.B = st.B ∧ (waveStep m st).2.count = st.count ∧
    (waveStep m st).2.meal_in_progress = st.meal_in_progress ∧
    (waveStep m st).2.adValue = st.adValue ∧
    (waveStep m st).2.since = (if st.since ≥ 0 then st.since + 1 / 10000 else st.since) := by
  unfold waveStep
  split_ifs <;> simp

/-- One tick from a state that satisfies the invariant returns, keeps the
invariant, and moves the preset index by the number of triggers it fired. -/
lemma hapticFunc_step (m : Libm) (st : HapticState) (r : Int) (hI : Inv st) :
    ∃ st1 e, hapticFunc m st r = some (st1, e) ∧ Inv st1 ∧
      st1.i = (st.i + triggerCount e) % 18 ∧
      (triggerCount e = if r > 2400 ∧ st.since = -1 then 1 else 0) := by
  obtain ⟨hs, hi0, hi1, hc0, hc1⟩ := hI
  by_cases hf : r > 2400 ∧ st.since = -1
  · obtain ⟨f, d, -, -, hw⟩ := hapticWave_fired m st r hi0 hi1 hf.1 hf.2
    refine ⟨_, _, hapticFunc_of_wave m st _ r _ _ hw, ?_, ?_, ?_⟩
    · obtain ⟨c1, c2, -, -, -, -, c7⟩ := countStep_fields
        { st with adValue := r,
                  meal_in_progress := (checkMealState st.meal_in_progress r).1,
                  since := 0 + 1 / 10000, omega := f * m.M_PI * 2, B := d,
                  i := (st.i + 1) % 18 }
      refine ⟨?_, ?_, ?_, ?_, ?_⟩
      · rw [c1]; right; norm_num
      · rw [c2]; dsimp only; omega
      · rw [c2]; dsimp only; omega
      · rw [c7]; dsimp only; split_ifs <;> omega
      · rw [c7]; dsimp only; split_ifs <;> omega
    · rw [(countStep_fields _).2.1, triggerCount_tick, triggerCount_readAndCheck,
        triggerCount_countStep]
      rfl
    · rw [triggerCount_tick, triggerCount_readAndCheck, triggerCount_countStep, if_pos hf]
      rfl
  · have hw := hapticWave_not_fired m st r hf
    refine ⟨_, _, hapticFunc_of_wave m st _ r _ _ hw, ?_, ?_, ?_⟩
    · obtain ⟨c1, c2, -, -, -, -, c7⟩ := countStep_fields
        (waveStep m (rearmStep (readAndCheck st r).1).1).2
      obtain ⟨w1, -, -, w4, -, -, w7⟩ := waveStep_fields m (rearmStep (readAndCheck st r).1).1
      obtain ⟨r1, -, -, r4, -, -, r7⟩ := rearmStep_fields (readAndCheck st r).1
      have hi : (readAndCheck st r).1.i = st.i := rfl
      have hcn : (readAndCheck st r).1.count = st.count := rfl
      have hsn : (readAndCheck st r).1.since = st.since := rfl
      refine ⟨?_, ?_, ?_, ?_, ?_⟩
      · rw [c1, w7, r7, hsn]
        split_ifs with h1 h2 h3
        · norm_num at h2
        · left; rfl
        · right; linarith
        · exact hs
      · rw [c2, w1, r1, hi]; exact hi0
      · rw [c2, w1, r1, hi]; exact hi1
      · rw [c7, w4, r4, hcn]; split_ifs <;> omega
      · rw [c7, w4, r4, hcn]; split_ifs <;> omega
    · rw [(countStep_fields _).2.1, (waveStep_fields m _).1, (rearmStep_fields _).1]
      rw [triggerCount_tick, triggerCount_readAndCheck, triggerCount_countStep,
        triggerCount_rearmStep]
      have hi : (readAndCheck st r).1.i = st.i := rfl
      rw [hi]
      simp only [add_zero, Nat.cast_zero]
      omega
    · rw [triggerCount_tick, triggerCount_readAndCheck, triggerCount_countStep,
        triggerCount_rearmStep, if_neg hf]

lemma Inv_init : Inv HapticState.init := by
  refine ⟨Or.inl rfl, ?_, ?_, ?_, ?_⟩ <;> decide

/-- Every run from a state that satisfies the invariant returns, keeps the
invariant, has moved the preset index by the number of triggers fired, and
has kept every duty within the PWM period. -/
lemma runHaptic_inv (m : Libm) (rs : List Int) : ∀ st, Inv st →
    ∃ st1 e, runHaptic m st rs = some (st1, e) ∧ Inv st1 ∧
      st1.i = (st.i + triggerCount e) % 18 ∧
      (∀ n, Effect.motorSetSpeed n ∈ e → n ≤ 400) := by
  induction rs with
  | nil =>
    intro st hI
    refine ⟨st, [], rfl, hI, ?_, ?_⟩
    · obtain ⟨-, h0, h1, -, -⟩ := hI
      simp only [triggerCount, Nat.cast_zero, add_zero]
      omega
    · intro n hn; simp at hn
  | cons r rs ih =>
    intro st hI
    obtain ⟨st1, e1, h1, hI1, hi1, -⟩ := hapticFunc_step m st r hI
    obtain ⟨st2, e2, h2, hI2, hi2, hd2⟩ := ih st1 hI1
    refine ⟨st2, e1 ++ e2, ?_, hI2, ?_, ?_⟩
    · simp [runHaptic, h1, h2]
    · rw [hi2, hi1, triggerCount_append]
      push_cast
      omega
    · intro n hn
      rcases List.mem_append.mp hn with hn | hn
      · exact hapticFunc_speed_le m st st1 r e1 h1 n hn
      · exact hd2 n hn

lemma triggerN_index (m : Libm) (n : Nat) : ∀ st : HapticState, 0 ≤ st.i → st.i < 18 →
    ∃ st1, triggerN m n st = some st1 ∧ st1.i = (st.i + n) % 18 := by
  induction n with
  | zero =>
    intro st h0 h1
    refine ⟨st, rfl, ?_⟩
    simp only [Nat.cast_zero, add_zero]
    omega
  | succ n ih =>
    intro st h0 h1
    obtain ⟨f, d, -, -, hb⟩ := triggerBody_eq m st h0 h1
    obtain ⟨st1, h2, h3⟩ := ih
      { st with since := 0, omega := f * m.M_PI * 2, B := d, i := (st.i + 1) % 18 }
      (by dsimp only; omega) (by dsimp only; omega)
    refine ⟨st1, ?_, ?_⟩
    · simp [triggerN, hb, h2]
    · rw [h3]
      dsimp only
      push_cast
      omega

lemma sentMsgs_append (a b : List Effect) :
    sentMsgs (a ++ b) = sentMsgs a ++ sentMsgs b := by
  induction a with
  | nil => simp [sentMsgs]
  | cons x a ih => cases x <;> simp [sentMsgs, ih]

lemma sentMsgs_rearmStep (st : HapticState) : sentMsgs (rearmStep st).2 = [] := by
  rcases rearmStep_effects st with h | h <;> rw [h] <;> rfl

lemma sentMsgs_countStep (st : HapticState) : sentMsgs (countStep st).2 = [] := by
  rcases countStep_effects st with h | h <;> rw [h] <;> rfl

lemma sentMsgs_motor (pwm : ℚ) (n : Nat) :
    sentMsgs [(motorSign pwm).1, Effect.motorSetSpeed n] = [] := by
  unfold motorSign
  split_ifs <;> rfl

lemma sentMsgs_tick (a b c : List Effect) (pwm : ℚ) (n : Nat) :
    sentMsgs (a ++ b ++ [(motorSign pwm).1, Effect.motorSetSpeed n] ++ c) =
      sentMsgs a ++ sentMsgs b ++ sentMsgs c := by
  rw [sentMsgs_append, sentMsgs_append, sentMsgs_append, sentMsgs_motor]
  simp

lemma checkMealState_sent (s : Bool) (r : Int) :
    ((checkMealState s r).1 ≠ s → (sentMsgs (checkMealState s r).2).length = 1) ∧
    ((checkMealState s r).1 = s → sentMsgs (checkMealState s r).2 = []) := by
  unfold checkMealState
  cases s <;> split_ifs <;> simp_all [sentMsgs]

lemma motorSign_fst (pwm : ℚ) :
    (motorSign pwm).1 = Effect.motorForward ∨ (motorSign pwm).1 = Effect.motorReverse := by
  unfold motorSign
  split_ifs <;> simp

/-- The calls of a tick are, in order: the ADC read and the calls of
`checkMealState`, then calls `mid` that send nothing, then the direction and
the duty, then calls `tl` that send nothing; the flag is the one
`checkMealState` computed. -/
lemma hapticFunc_calls (m : Libm) (st : HapticState) (r : Int) (h0 : 0 ≤ st.i)
    (h1 : st.i < 18) :
    ∃ st1 mid tl d n, hapticFunc m st r =
        some (st1, (readAndCheck st r).2 ++ mid ++ [d, Effect.motorSetSpeed n] ++ tl) ∧
      sentMsgs mid = [] ∧ sentMsgs tl = [] ∧
      (d = Effect.motorForward ∨ d = Effect.motorReverse) ∧
      st1.meal_in_progress = (checkMealState st.meal_in_progress r).1 := by
  by_cases hf : r > 2400 ∧ st.since = -1
  · obtain ⟨f, d, -, -, hw⟩ := hapticWave_fired m st r h0 h1 hf.1 hf.2
    refine ⟨_, [Effect.printWave (f * m.M_PI * 2 / (m.M_PI * 2)) wave.amplitude d], _, _, _,
      hapticFunc_of_wave m st _ r _ _ hw, rfl, sentMsgs_countStep _, motorSign_fst _, ?_⟩
    rw [(countStep_fields _).2.2.2.2.1]
  · have hw := hapticWave_not_fired m st r hf
    refine ⟨_, (rearmStep (readAndCheck st r).1).2, _, _, _,
      hapticFunc_of_wave m st _ r _ _ hw, sentMsgs_rearmStep _, sentMsgs_countStep _,
      motorSign_fst _, ?_⟩
    rw [(countStep_fields _).2.2.2.2.1, (waveStep_fields m _).2.2.2.2.1,
      (rearmStep_fields _).2.2.2.2.1]
    rfl

/-- The fields of the state after a tick that skips the trigger body. -/
lemma idle_fields (m : Libm) (st : HapticState) (r : Int) :
    (countStep (waveStep m (rearmStep (readAndCheck st r).1).1).2).1.i = st.i ∧
    (countStep (waveStep m (rearmStep (readAndCheck st r).1).1).2).1.omega = st.omega ∧
    (countStep (waveStep m (rearmStep (readAndCheck st r).1).1).2).1.B = st.B ∧
    (countStep (waveStep m (rearmStep (readAndCheck st r).1).1).2).1.since =
      (if r < 2100 ∧ st.since > 3 / 10 then -1
       else if st.since ≥ 0 then st.since + 1 / 10000 else st.since) := by
  obtain ⟨c1, c2, c3, c4, -⟩ := countStep_fields
    (waveStep m (rearmStep (readAndCheck st r).1).1).2
  obtain ⟨w1, w2, w3, -, -, -, w7⟩ := waveStep_fields m (rearmStep (readAndCheck st r).1).1
  obtain ⟨r1, r2, r3, -, -, -, r7⟩ := rearmStep_fields (readAndCheck st r).1
  have e1 : (readAndCheck st r).1.since = st.since := rfl
  have e2 : (readAndCheck st r).1.adValue = r := rfl
  refine ⟨?_, ?_, ?_, ?_⟩
  · rw [c2, w1, r1]; rfl
  · rw [c3, w2, r2]; rfl
  · rw [c4, w3, r3]; rfl
  · rw [c1, w7, r7, e1, e2]
    split_ifs with a1 a2 <;> first | rfl | (norm_num at a2)

/-- C1: `checkMealState` is the three-case transition with thresholds 2000
and 3000: from Idle (flag false) with `r ≥ 3000` the flag becomes true and
exactly `"mealStart"` is sent; otherwise from InMeal (flag true) with
`r < 2000` the flag becomes false and exactly `"mealEnd"` is sent; otherwise
the flag is unchanged and nothing is sent.  In particular a reading in
`[2000, 3000)` changes nothing in either state. -/
theorem checkMealState_three_cases (s : Bool) (r : Int) :
    ADC_THRESHOLD_1 = 2000 ∧ ADC_THRESHOLD_2 = 3000 ∧
    (s = false ∧ r ≥ 3000 →
      (checkMealState s r).1 = true ∧ sentMsgs (checkMealState s r).2 = ["mealStart"]) ∧
    (¬ (s = false ∧ r ≥ 3000) → s = true ∧ r < 2000 →
      (checkMealState s r).1 = false ∧ sentMsgs (checkMealState s r).2 = ["mealEnd"]) ∧
    (¬ (s = false ∧ r ≥ 3000) → ¬ (s = true ∧ r < 2000) →
      checkMealState s r = (s, [])) ∧
    (2000 ≤ r ∧ r < 3000 → checkMealState s r = (s, [])) := by
  refine ⟨rfl, rfl, ?_, ?_, ?_, ?_⟩
  · rintro ⟨hs, hr⟩
    subst hs
    simp [checkMealState_start r hr, sentMsgs]
  · intro _ ⟨hs, hr⟩
    subst hs
    simp [checkMealState_end r hr, sentMsgs]
  · exact checkMealState_other s r
  · rintro ⟨h1, h2⟩
    exact checkMealState_other s r (by omega) (by omega)

/-- C2: for every finite sequence of readings fed one per call to
`checkMealState` from Idle, each call sends at most one event, the
concatenated events are `"mealStart"`, `"mealEnd"`, `"mealStart"`, ... (the
`k`-th one is `alternating k`, no two neighbours are equal), the run ends in
InMeal exactly when the number of events is odd, and the readings
`[3500, 1500]` send exactly `"mealStart"` then `"mealEnd"` and end in Idle. -/
theorem runMeal_events_alternate (rs : List Int) :
    (∀ l ∈ (runMeal false rs).2, l.length ≤ 1) ∧
    (runMeal false rs).2.length = rs.length ∧
    (∀ k, k < (runMeal false rs).2.flatten.length →
      (runMeal false rs).2.flatten[k]? = some (alternating k)) ∧
    List.Chain' (fun a b => a ≠ b) (runMeal false rs).2.flatten ∧
    ((runMeal false rs).1 = true ↔ (runMeal false rs).2.flatten.length % 2 = 1) ∧
    runMeal false [3500, 1500] = (false, [["mealStart"], ["mealEnd"]]) := by
  obtain ⟨n, hn, hf⟩ := runMeal_altFrom rs false
  refine ⟨runMeal_mem_length rs false, ?_, ?_, ?_, ?_, ?_⟩
  · exact runMeal_length rs false
  · intro k hk
    rw [hn, altFrom_length] at hk
    rw [hn, altFrom_getElem? n false k hk]
    rfl
  · rw [hn]; exact altFrom_chain n false
  · rw [hn, altFrom_length, hf]
    rcases Nat.mod_two_eq_zero_or_one n with h | h <;> simp [h]
  · simp [runMeal, checkMealState, ADC_THRESHOLD_1, ADC_THRESHOLD_2, sentMsgs]

/-- C3: for every reading `r ≥ 3000`, `checkMealState` in Idle moves to InMeal
and sends `"mealStart"`, and a second call with the same `r` sends nothing and
stays in InMeal; and for every state and every reading, a second consecutive
call with the same reading makes no call at all and leaves the state as the
first call left it. -/
theorem checkMealState_second_call (s : Bool) (r : Int) :
    (r ≥ 3000 →
      (checkMealState false r).1 = true ∧
      sentMsgs (checkMealState false r).2 = ["mealStart"] ∧
      checkMealState (checkMealState false r).1 r = (true, [])) ∧
    checkMealState (checkMealState s r).1 r = ((checkMealState s r).1, []) := by
  have key : ∀ s, checkMealState (checkMealState s r).1 r = ((checkMealState s r).1, []) := by
    intro s
    by_cases h1 : s = false ∧ r ≥ 3000
    · obtain ⟨hs, hr⟩ := h1
      subst hs
      rw [checkMealState_start r hr]
      exact checkMealState_other true r (by simp) (by simp; omega)
    · by_cases h2 : s = true ∧ r < 2000
      · obtain ⟨hs, hr⟩ := h2
        subst hs
        rw [checkMealState_end r hr]
        exact checkMealState_other false r (by simp; omega) (by simp)
      · rw [checkMealState_other s r h1 h2]
        exact checkMealState_other s r h1 h2
  refine ⟨fun hr => ?_, key s⟩
  have h := key false
  rw [checkMealState_start r hr] at h ⊢
  exact ⟨rfl, by simp [sentMsgs], h⟩

/-- C4: for every value of the sample `pwm`, of either sign and any magnitude,
`hapticFunc` calls `bdc_motor_set_speed` with a duty in
`[0, BDC_MCPWM_DUTY_TICK_MAX] = [0, 400]` (a `Nat`, so non-negative), every
sample with `|pwm| > 1` gives exactly 400, and `pwm = 2` gives 400; the same
bound holds for every `bdc_motor_set_speed` call of a tick and of every run of
ticks from the initial state, which always returns. -/
theorem duty_in_range (pwm : ℚ) :
    BDC_MCPWM_DUTY_TICK_MAX = 400 ∧
    (∃ d n, motorStep pwm = some [d, Effect.motorSetSpeed n] ∧
      (n : Int) ≤ BDC_MCPWM_DUTY_TICK_MAX ∧ (|pwm| > 1 → n = 400)) ∧
    motorStep 2 = some [Effect.motorForward, Effect.motorSetSpeed 400] ∧
    (∀ (m : Libm) (st st1 : HapticState) (r : Int) (e : List Effect),
      hapticFunc m st r = some (st1, e) →
      ∀ n, Effect.motorSetSpeed n ∈ e → (n : Int) ≤ BDC_MCPWM_DUTY_TICK_MAX) ∧
    (∀ (m : Libm) (rs : List Int), ∃ st e, runHaptic m HapticState.init rs = some (st, e) ∧
      ∀ n, Effect.motorSetSpeed n ∈ e → (n : Int) ≤ BDC_MCPWM_DUTY_TICK_MAX) := by
  refine ⟨duty_tick_max, ⟨_, _, motorStep_eq pwm, ?_, ?_⟩, ?_, ?_, ?_⟩
  · rw [duty_tick_max]
    exact_mod_cast duty_le pwm
  · intro h
    exact duty_of_int pwm 400 (by decide) (by rw [min_eq_right h.le]; norm_num)
  · exact motorStep_two
  · intro m st st1 r e h n hn
    rw [duty_tick_max]
    exact_mod_cast hapticFunc_speed_le m st st1 r e h n hn
  · intro m rs
    obtain ⟨st, e, h, -, -, hd⟩ := runHaptic_inv m rs HapticState.init Inv_init
    refine ⟨st, e, h, fun n hn => ?_⟩
    rw [duty_tick_max]
    exact_mod_cast hd n hn

/-- C7: preset selection is round-robin over the `3 × 6 = 18` presets: from
index `0`, `n` successive triggers leave the index `n mod 18` (in `[0, 18)`,
back at `0` after 18 triggers and not before), the same holds for the triggers
fired along any run of ticks from the initial state, and a trigger at index
`i` reads `wave.freq[i mod 6]` and `wave.damp[i div 6]`, both inside their
arrays. -/
theorem preset_round_robin (m : Libm) :
    wave.nFreq * wave.nDamp = 18 ∧ wave.freq.length = 6 ∧ wave.damp.length = 3 ∧
    (∀ (n : Nat) (st : HapticState), st.i = 0 →
      ∃ st1, triggerN m n st = some st1 ∧ st1.i = (n : Int) % 18 ∧
        0 ≤ st1.i ∧ st1.i < 18 ∧ (0 < n → n < 18 → st1.i ≠ 0) ∧ (n = 18 → st1.i = 0)) ∧
    (∀ rs : List Int, ∃ st e, runHaptic m HapticState.init rs = some (st, e) ∧
      st.i = (triggerCount e : Int) % 18) ∧
    (∀ st : HapticState, 0 ≤ st.i → st.i < 18 →
      0 ≤ Int.tmod st.i 6 ∧ Int.tmod st.i 6 < 6 ∧ 0 ≤ Int.tdiv st.i 6 ∧ Int.tdiv st.i 6 < 3 ∧
      ∃ f d, wave.freq[(Int.tmod st.i 6).toNat]? = some f ∧
        wave.damp[(Int.tdiv st.i 6).toNat]? = some d ∧
        triggerBody m st =
          some ({ st with since := 0, omega := f * m.M_PI * 2, B := d,
                          i := if st.i + 1 ≥ 18 then 0 else st.i + 1 },
                [Effect.printWave (f * m.M_PI * 2 / (m.M_PI * 2)) wave.amplitude d])) := by
  refine ⟨by decide, rfl, rfl, ?_, ?_, ?_⟩
  · intro n st h0
    obtain ⟨st1, h1, h2⟩ := triggerN_index m n st (by omega) (by omega)
    rw [h0, zero_add] at h2
    refine ⟨st1, h1, h2, by omega, by omega, fun _ _ => by omega, fun _ => by omega⟩
  · intro rs
    obtain ⟨st, e, h1, -, h2, -⟩ := runHaptic_inv m rs HapticState.init Inv_init
    refine ⟨st, e, h1, ?_⟩
    rw [h2]
    simp [HapticState.init]
  · intro st h0 h1
    obtain ⟨f, d, hf, hd, hb⟩ := triggerBody_eq m st h0 h1
    have e1 : Int.tmod st.i 6 = st.i % 6 := by
      rw [Int.tmod_eq_emod h0 (by decide)]
    have e2 : Int.tdiv st.i 6 = st.i / 6 := by
      rw [Int.tdiv_eq_ediv h0 (by decide)]
    have e3 : (if st.i + 1 ≥ 18 then (0 : Int) else st.i + 1) = (st.i + 1) % 18 := by
      split_ifs <;> omega
    rw [e1, e2, e3]
    exact ⟨by omega, by omega, by omega, by omega, f, d, hf, hd, hb⟩

/-- C8: given `cos 0 = 1` and `exp 0 = 1`, for every angular frequency `omega`
and every damping coefficient `B` the sample computed by `hapticFunc` at
elapsed time `0` is exactly `wave.amplitude = 2`, and this is the sample of
every tick in which a trigger fires. -/
theorem sample_at_trigger (m : Libm) (hcos : m.cos 0 = 1) (hexp : m.exp 0 = 1) :
    wave.amplitude = 2 ∧
    (∀ (st : HapticState) (omega B : ℚ),
      (waveStep m { st with since := 0, omega := omega, B := B }).1 = wave.amplitude) ∧
    (∀ (st : HapticState) (r : Int), 0 ≤ st.i → st.i < 18 → r > 2400 → st.since = -1 →
      hapticSample m st r = some wave.amplitude) := by
  refine ⟨rfl, ?_, ?_⟩
  · intro st omega B
    simp [waveStep, hcos, hexp]
  · intro st r h0 h1 hr hs
    obtain ⟨f, d, -, -, hw⟩ := hapticWave_fired m st r h0 h1 hr hs
    simp [hapticSample, hw, hcos, hexp]

/-- A witness of C8: with the polynomial stand-ins for `cos` and `exp`, the
first tick with reading 2500 computes the sample 2. -/
theorem sample_at_trigger_witness :
    libmPoly.cos 0 = 1 ∧ libmPoly.exp 0 = 1 ∧
    hapticSample libmPoly HapticState.init 2500 = some 2 :=
  ⟨by norm_num [libmPoly], by norm_num [libmPoly],
    (sample_at_trigger libmPoly (by norm_num [libmPoly]) (by norm_num [libmPoly])).2.2
      HapticState.init 2500 (by decide) (by decide) (by decide) rfl⟩

/-- C10: a new wave is never started while one is playing.  Every run of
ticks from the initial state returns and leaves `since` equal to `-1` or
non-negative.  A tick that begins with `since ≥ 0` returns, does not execute
the trigger body, leaves `i`, `omega` and `B` unchanged and `since` different
from `0`: `since` becomes `-1` when `reading < 2100` and `since > 0.3`, and
`since + 0.0001` otherwise.  A tick executes the trigger body (once) exactly
when `reading > 2400` and `since = -1` at its start; it then selects the
preset `i`, restarts `since` at `0` (advanced to `0.0001` by the evaluation of
the same tick) and advances `i` cyclically. -/
theorem no_retrigger_while_active (m : Libm) :
    HapticState.init.since = -1 ∧ HapticState.init.i = 0 ∧
    (∀ rs : List Int, ∃ st e, runHaptic m HapticState.init rs = some (st, e) ∧
      (st.since = -1 ∨ st.since ≥ 0)) ∧
    (∀ (st : HapticState) (r : Int), st.since ≥ 0 →
      ∃ st1 e, hapticFunc m st r = some (st1, e) ∧ triggerCount e = 0 ∧
        st1.since ≠ 0 ∧ st1.i = st.i ∧ st1.omega = st.omega ∧ st1.B = st.B ∧
        st1.since = (if r < 2100 ∧ st.since > 3 / 10 then -1 else st.since + 1 / 10000)) ∧
    (∀ (st : HapticState) (r : Int), 0 ≤ st.i → st.i < 18 →
      ∃ st1 e, hapticFunc m st r = some (st1, e) ∧
        (triggerCount e = 1 ↔ (r > 2400 ∧ st.since = -1)) ∧
        (triggerCount e = 0 ↔ ¬ (r > 2400 ∧ st.since = -1)) ∧
        ((r > 2400 ∧ st.since = -1) →
          st1.since = 0 + 1 / 10000 ∧ st1.i = (if st.i + 1 ≥ 18 then 0 else st.i + 1) ∧
          ∃ f d, wave.freq[(st.i % 6).toNat]? = some f ∧
            wave.damp[(st.i / 6).toNat]? = some d ∧
            st1.omega = f * m.M_PI * 2 ∧ st1.B = d) ∧
        (¬ (r > 2400 ∧ st.since = -1) →
          st1.i = st.i ∧ st1.omega = st.omega ∧ st1.B = st.B)) := by
  refine ⟨rfl, rfl, ?_, ?_, ?_⟩
  · intro rs
    obtain ⟨st, e, h, hI, -, -⟩ := runHaptic_inv m rs HapticState.init Inv_init
    exact ⟨st, e, h, hI.1⟩
  · intro st r hs
    have hf : ¬ (r > 2400 ∧ st.since = -1) := by
      rintro ⟨-, h⟩
      rw [h] at hs
      norm_num at hs
    obtain ⟨f1, f2, f3, f4⟩ := idle_fields m st r
    have hsince : (countStep (waveStep m (rearmStep (readAndCheck st r).1).1).2).1.since =
        (if r < 2100 ∧ st.since > 3 / 10 then -1 else st.since + 1 / 10000) := by
      rw [f4]
      split_ifs <;> rfl
    refine ⟨_, _, hapticFunc_of_wave m st _ r _ _ (hapticWave_not_fired m st r hf), ?_, ?_,
      f1, f2, f3, hsince⟩
    · rw [triggerCount_tick, triggerCount_readAndCheck, triggerCount_rearmStep,
        triggerCount_countStep]
    · rw [hsince]
      split_ifs
      · norm_num
      · have : (0 : ℚ) < st.since + 1 / 10000 := by linarith
        exact ne_of_gt this
  · intro st r h0 h1
    by_cases hf : r > 2400 ∧ st.since = -1
    · obtain ⟨f, d, hfr, hdm, hw⟩ := hapticWave_fired m st r h0 h1 hf.1 hf.2
      obtain ⟨c1, c2, c3, c4, -⟩ := countStep_fields
        { st with adValue := r,
                  meal_in_progress := (checkMealState st.meal_in_progress r).1,
                  since := 0 + 1 / 10000, omega := f * m.M_PI * 2, B := d,
                  i := (st.i + 1) % 18 }
      have e3 : (if st.i + 1 ≥ 18 then (0 : Int) else st.i + 1) = (st.i + 1) % 18 := by
        split_ifs <;> omega
      refine ⟨_, _, hapticFunc_of_wave m st _ r _ _ hw, ?_, ?_, ?_, ?_⟩
      · rw [triggerCount_tick, triggerCount_readAndCheck, triggerCount_countStep]
        exact ⟨fun _ => hf, fun _ => rfl⟩
      · rw [triggerCount_tick, triggerCount_readAndCheck, triggerCount_countStep]
        exact ⟨fun h => absurd h (by simp [triggerCount]), fun h => absurd hf h⟩
      · intro _
        rw [e3]
        exact ⟨c1, c2, f, d, hfr, hdm, c3, c4⟩
      · intro h; exact absurd hf h
    · obtain ⟨f1, f2, f3, -⟩ := idle_fields m st r
      refine ⟨_, _, hapticFunc_of_wave m st _ r _ _ (hapticWave_not_fired m st r hf),
        ?_, ?_, ?_, ?_⟩
      · rw [triggerCount_tick, triggerCount_readAndCheck, triggerCount_rearmStep,
          triggerCount_countStep]
        exact ⟨fun h => absurd h (by decide), fun h => absurd h hf⟩
      · rw [triggerCount_tick, triggerCount_readAndCheck, triggerCount_rearmStep,
          triggerCount_countStep]
        exact ⟨fun _ => hf, fun _ => rfl⟩
      · intro h; exact absurd h hf
      · intro _; exact ⟨f1, f2, f3⟩

/-- C5, counterexample: the sample `0` is `≥ 0`, yet `hapticFunc` calls
`bdc_motor_reverse` for it, so the direction is not "Forward if sample ≥ 0";
the first tick with reading `0`, in which no wave is active, makes exactly
the calls `adc_oneshot_read`, `bdc_motor_reverse`, `bdc_motor_set_speed(0)`. -/
theorem zero_sample_is_reverse :
    (0 : ℚ) ≥ 0 ∧ (motorSign 0).1 = Effect.motorReverse ∧
    ¬ (∀ pwm : ℚ, (motorSign pwm).1 =
        if pwm ≥ 0 then Effect.motorForward else Effect.motorReverse) ∧
    motorStep 0 = some [Effect.motorReverse, Effect.motorSetSpeed 0] ∧
    hapticFunc libmPoly HapticState.init 0 =
      some ({ HapticState.init with count := 1 },
            [Effect.adcRead, Effect.motorReverse, Effect.motorSetSpeed 0]) := by
  have h0 : (motorSign 0).1 = Effect.motorReverse := by simp [motorSign]
  refine ⟨le_refl _, h0, ?_, ?_, ?_⟩
  · intro h
    have h1 := h 0
    rw [h0] at h1
    simp at h1
  · exact motorStep_zero
  · have hw := hapticWave_not_fired libmPoly HapticState.init 0 (by norm_num)
    have e1 : readAndCheck HapticState.init 0 = (HapticState.init, [Effect.adcRead]) := rfl
    have e2 : rearmStep HapticState.init = (HapticState.init, []) := by
      norm_num [rearmStep, HapticState.init]
    have e3 : waveStep libmPoly HapticState.init = (0, HapticState.init) := by
      norm_num [waveStep, HapticState.init]
    have e4 : countStep HapticState.init = ({ HapticState.init with count := 1 }, []) := rfl
    rw [hapticFunc_of_wave _ _ _ _ _ _ hw, e1, e2, e3, e4, h0,
      duty_of_int 0 0 (by decide) (by norm_num)]
    rfl

/-- C5, amended: for every sample the direction is Forward
(`bdc_motor_forward`) if `sample > 0` and Reverse (`bdc_motor_reverse`)
otherwise, and the magnitude is `|sample|`; the sample `0`, the value of every
tick in which no wave is active, selects Reverse, with duty `0`. -/
theorem direction_and_magnitude (pwm : ℚ) :
    (motorSign pwm).1 = (if pwm > 0 then Effect.motorForward else Effect.motorReverse) ∧
    (motorSign pwm).2 = |pwm| ∧
    (∃ n, motorStep pwm = some [(motorSign pwm).1, Effect.motorSetSpeed n]) ∧
    (∀ (m : Libm) (st : HapticState), ¬ st.since ≥ 0 → (waveStep m st).1 = 0) ∧
    motorStep 0 = some [Effect.motorReverse, Effect.motorSetSpeed 0] := by
  refine ⟨?_, motorSign_snd pwm, ⟨_, motorStep_eq pwm⟩, ?_, ?_⟩
  · unfold motorSign
    split_ifs <;> rfl
  · intro m st h
    simp [waveStep, h]
  · exact motorStep_zero

/-- C6, counterexample: for the sample `3/64`, `m × 400 = 18.75` (an exact
binary64 product), which rounds to 19, but `hapticFunc` passes 18 to
`bdc_motor_set_speed`. -/
theorem duty_is_not_rounded :
    motorStep (3 / 64) = some [Effect.motorForward, Effect.motorSetSpeed 18] ∧
    round (min |(3 / 64 : ℚ)| 1 * 400) = 19 := by
  constructor
  · have e : (min |(3 / 64 : ℚ)| 1 * 400 : ℚ) = ((75 * 2 ^ 42 : Int) : ℚ) / 2 ^ 44 := by
      norm_num [abs_of_pos]
    have hx : |(((75 * 2 ^ 42 : Int) : ℚ)) / 2 ^ 44| ≤ 400 := by
      norm_num [abs_of_pos]
    rw [motorStep_eq, e, roundBinary64_exact _ hx]
    norm_num [motorSign]
    rfl
  · norm_num [abs_of_pos, round_eq]

/-- C6, amended: for every sample the duty passed to `bdc_motor_set_speed` is
the integer part of the binary64 product `m × 400`, where
`m = min(|sample|, 1)`: the product is rounded to binary64 and its fraction
is then discarded, not rounded.  The duty is `⌊m × 400⌋` or the next integer
(so it is `m × 400` whenever that is an integer); the sample `-0.5` gives
Reverse with duty 200 and the sample `2.0` gives duty 400.  At the binary64
value nearest `0.35` the exact product is below 140 and its binary64 rounding
is 140, so the duty is 140 although `⌊m × 400⌋ = 139`. -/
theorem duty_is_truncated_product (pwm : ℚ) :
    (∃ n : Nat, motorStep pwm = some [(motorSign pwm).1, Effect.motorSetSpeed n] ∧
      (n : Int) = ⌊roundBinary64 (min |pwm| 1 * 400)⌋ ∧
      ⌊min |pwm| 1 * 400⌋ ≤ (n : Int) ∧ (n : Int) ≤ ⌈min |pwm| 1 * 400⌉ ∧
      (∀ k : Nat, min |pwm| 1 * 400 = k → n = k)) ∧
    motorStep (-1 / 2) = some [Effect.motorReverse, Effect.motorSetSpeed 200] ∧
    motorStep 2 = some [Effect.motorForward, Effect.motorSetSpeed 400] ∧
    motorStep (3152519739159347 / 9007199254740992) =
      some [Effect.motorForward, Effect.motorSetSpeed 140] ∧
    ⌊min |(3152519739159347 / 9007199254740992 : ℚ)| 1 * 400⌋ = 139 := by
  obtain ⟨a0, a1, a2⟩ := duty_arg_range pwm
  obtain ⟨r0, r1⟩ := rounded_duty_range pwm
  have hn : ((⌊roundBinary64 (min |pwm| 1 * 400)⌋.toNat : Nat) : Int) =
      ⌊roundBinary64 (min |pwm| 1 * 400)⌋ :=
    Int.toNat_of_nonneg (Int.floor_nonneg.mpr r0)
  refine ⟨⟨_, motorStep_eq pwm, hn, ?_, ?_, ?_⟩, ?_, motorStep_two, ?_, ?_⟩
  · rw [hn]
    exact Int.le_floor.mpr
      ((roundBinary64_int_bounds _ a2 ⌊min |pwm| 1 * 400⌋).1 (Int.floor_le _))
  · rw [hn]
    have h := (roundBinary64_int_bounds _ a2 ⌈min |pwm| 1 * 400⌉).2 (Int.le_ceil _)
    exact Int.floor_le_iff.mpr (by linarith)
  · intro k hk
    have hk4 : k ≤ 400 := by
      have : ((k : Nat) : ℚ) ≤ 400 := by rw [← hk]; exact a1
      exact_mod_cast this
    exact duty_of_int pwm k hk4 hk
  · rw [motorStep_of_int (-1 / 2) 200 (by decide) (by norm_num [abs_of_neg])]
    norm_num [motorSign]
  · have hl : Int.log 2 |(3152519739159347 / 9007199254740992 * 400 : ℚ)| = 7 := by
      apply log_eq_of_bounds <;> norm_num [abs_of_pos]
    have hr : roundBinary64 (3152519739159347 / 9007199254740992 * 400) = 140 := by
      unfold roundBinary64 ulp
      rw [hl]
      norm_num [roundHalfEven]
    have e : (min |(3152519739159347 / 9007199254740992 : ℚ)| 1 * 400 : ℚ) =
        3152519739159347 / 9007199254740992 * 400 := by
      norm_num [abs_of_pos]
    rw [motorStep_eq, e, hr]
    norm_num [motorSign]
    rfl
  · norm_num [abs_of_pos]

/-- C9, counterexample: in the first tick with reading 3000, `checkMealState`
detects the start of a meal and `send_http_msg("mealStart")` is called inside
the tick, between the ADC read and the motor commands: the tick does wait for
the network call. -/
theorem tick_calls_send_http_msg :
    hapticFunc libmPoly HapticState.init 3000 =
      some ({ adValue := 3000, meal_in_progress := true, count := 1, since := 1 / 10000,
              i := 1, omega := 10 * libmPoly.M_PI * 2, B := -2 },
            [Effect.adcRead, Effect.logInfo ">>> Detected mealStart",
             Effect.sendHttpMsg "mealStart", Effect.printWave 10 2 (-2),
             Effect.motorForward, Effect.motorSetSpeed 400]) := by
  obtain ⟨f, d, hf, hd, hw⟩ := hapticWave_fired libmPoly HapticState.init 3000
    (by decide) (by decide) (by decide) rfl
  have hf2 : f = 10 := by
    have : wave.freq[(HapticState.init.i % 6).toNat]? = some 10 := rfl
    rw [this] at hf
    exact (Option.some.inj hf).symm
  have hd2 : d = -2 := by
    have : wave.damp[(HapticState.init.i / 6).toNat]? = some (-2) := rfl
    rw [this] at hd
    exact (Option.some.inj hd).symm
  subst hf2 hd2
  have e1 : readAndCheck HapticState.init 3000 =
      ({ HapticState.init with adValue := 3000, meal_in_progress := true },
       [Effect.adcRead, Effect.logInfo ">>> Detected mealStart",
        Effect.sendHttpMsg "mealStart"]) := rfl
  have e2 : (checkMealState HapticState.init.meal_in_progress 3000).1 = true := rfl
  rw [hapticFunc_of_wave _ _ _ _ _ _ hw, e1, e2]
  have e3 : (wave.amplitude * libmPoly.cos (10 * libmPoly.M_PI * 2 * 0) *
      libmPoly.exp (-2 * 0) : ℚ) = 2 := by
    norm_num [wave, libmPoly]
  have e4 : (10 * libmPoly.M_PI * 2 / (libmPoly.M_PI * 2) : ℚ) = 10 := by
    norm_num [libmPoly]
  rw [e3, e4, duty_of_int 2 400 (by decide) (by norm_num)]
  norm_num [countStep, motorSign, HapticState.init, wave]

/-- C9, amended: `hapticFunc` makes the notification itself, inside the tick.
In every tick from a state with a valid preset index the calls are, in order:
the ADC read, the calls of `checkMealState` (which include `send_http_msg`
when a transition is detected), calls that send nothing, the motor direction
and duty, and calls that send nothing.  `send_http_msg` is called once in a
tick that changes `meal_in_progress` and not at all in any other tick, and
the new flag is committed in the same tick. -/
theorem tick_notifies_inline (m : Libm) (st : HapticState) (r : Int)
    (h0 : 0 ≤ st.i) (h1 : st.i < 18) :
    ∃ st1 mid tl d n,
      hapticFunc m st r =
        some (st1, (Effect.adcRead :: (checkMealState st.meal_in_progress r).2) ++ mid ++
                [d, Effect.motorSetSpeed n] ++ tl) ∧
      sentMsgs mid = [] ∧ sentMsgs tl = [] ∧
      (d = Effect.motorForward ∨ d = Effect.motorReverse) ∧
      st1.meal_in_progress = (checkMealState st.meal_in_progress r).1 ∧
      (st1.meal_in_progress ≠ st.meal_in_progress →
        (sentMsgs (checkMealState st.meal_in_progress r).2).length = 1) ∧
      (st1.meal_in_progress = st.meal_in_progress →
        sentMsgs (checkMealState st.meal_in_progress r).2 = []) := by
  obtain ⟨st1, mid, tl, d, n, h, hm, ht, hd, hp⟩ := hapticFunc_calls m st r h0 h1
  refine ⟨st1, mid, tl, d, n, ?_, hm, ht, hd, hp, ?_, ?_⟩
  · rw [h, readAndCheck_effects]
  · rw [hp]; exact (checkMealState_sent _ r).1
  · rw [hp]; exact (checkMealState_sent _ r).2

/-- A witness of C9, amended: the first tick, with reading 3000. -/
theorem tick_notifies_inline_witness :
    0 ≤ HapticState.init.i ∧ HapticState.init.i < 18 ∧
    ∃ st1 mid tl d n,
      hapticFunc libmPoly HapticState.init 3000 =
        some (st1, (Effect.adcRead ::
                (checkMealState HapticState.init.meal_in_progress 3000).2) ++ mid ++
                [d, Effect.motorSetSpeed n] ++ tl) ∧
      sentMsgs mid = [] ∧ sentMsgs tl = [] ∧
      (d = Effect.motorForward ∨ d = Effect.motorReverse) ∧
      st1.meal_in_progress = (checkMealState HapticState.init.meal_in_progress 3000).1 ∧
      (st1.meal_in_progress ≠ HapticState.init.meal_in_progress →
        (sentMsgs (checkMealState HapticState.init.meal_in_progress 3000).2).length = 1) ∧
      (st1.meal_in_progress = HapticState.init.meal_in_progress →
        sentMsgs (checkMealState HapticState.init.meal_in_progress 3000).2 = []) :=
  ⟨by decide, by decide,
    tick_notifies_inline libmPoly HapticState.init 3000 (by decide) (by decide)⟩

end Monitor
